import Mathlib

/-!
Verification of the oops structured-error library (samber/oops).

We give a shallow embedding of the core data model and algorithms:
the value model for context entries (kv.go), the sealed error node
and its chain walkers (error.go), and the copy-on-write builder with
an explicit heap for Go map and slice aliasing (builder.go).
-/

namespace Oops

/-- Model of a Go `any` value stored in a context map.
`nilv` is the nil interface (an invalid reflect value);
`ptrNil` is a typed nil pointer, `ptrTo v` a pointer to `v`;
`thunk v` is a zero-argument single-result function returning `v`
(functions of other arities are not modelled; no claim involves them). -/
inductive GoValue : Type where
  | nilv : GoValue
  | str : String → GoValue
  | int : Int → GoValue
  | ptrNil : GoValue
  | ptrTo : GoValue → GoValue
  | thunk : GoValue → GoValue
  deriving Repr, DecidableEq

/-- A Go map[string]any, modelled as an association list
(first entry with a key is the visible binding). -/
abbrev GoMap : Type := List (String × GoValue)

/-- Lookup in a map: value of the first entry with the given key. -/
def mapGet (m : GoMap) (k : String) : Option GoValue :=
  match m.find? (fun kv => kv.1 == k) with
  | some kv => some kv.2
  | none => none

/-- Set a key in a map, as a Go map assignment does. Go maps are
unordered, so only lookup is observable; the binding is stored in front
and any stale binding for the key is dropped. -/
def mapSet (m : GoMap) (k : String) (v : GoValue) : GoMap :=
  (k, v) :: m.filter (fun kv => kv.1 ≠ k)

/-- Copy all entries of src into dest, in order (Go for-range plus
assignment; later entries of src win). Models one step of lo.Assign. -/
def assignMap (dest src : GoMap) : GoMap :=
  src.foldl (fun d kv => mapSet d kv.1 kv.2) dest

/-- Whether reflect.ValueOf of the value has pointer kind. -/
def isPtrKind : GoValue → Bool
  | GoValue.ptrNil => true
  | GoValue.ptrTo _ => true
  | _ => false

/-- kv.go dereferencePointerRecursive: chase a chain of pointers,
returning nil on a nil pointer, and the current raw pointer once
depth exceeds 10. Only ever invoked on pointer-kinded values. -/
def dereferencePointerRecursive : GoValue → Nat → GoValue
  | GoValue.ptrNil, _ => GoValue.nilv
  | GoValue.ptrTo inner, depth =>
      if depth > 10 then GoValue.ptrTo inner
      else
        match inner with
        | GoValue.ptrNil => dereferencePointerRecursive GoValue.ptrNil (depth + 1)
        | GoValue.ptrTo p => dereferencePointerRecursive (GoValue.ptrTo p) (depth + 1)
        | v => v
  | v, _ => v

/-- kv.go dereferencePointer: nil checks, then the recursive chase
starting at depth 0. -/
def dereferencePointer : GoValue → GoValue
  | GoValue.nilv => GoValue.nilv
  | GoValue.ptrNil => GoValue.nilv
  | v => dereferencePointerRecursive v 0

/-- Global toggle DereferencePointers (error.go), default true. -/
def DereferencePointersDefault : Bool := true

/-- kv.go dereferencePointers: when the toggle is on, replace every
pointer-kinded value of the map by its dereferenced form. -/
def dereferencePointers (derefEnabled : Bool) (data : GoMap) : GoMap :=
  if !derefEnabled then data
  else data.map (fun kv => if isPtrKind kv.2 then (kv.1, dereferencePointer kv.2) else kv)

/-- kv.go lazyValueEvaluation: a zero-argument single-result function
is called and replaced by its result; anything else is unchanged. -/
def lazyValueEvaluation : GoValue → GoValue
  | GoValue.thunk v => v
  | v => v

/-- kv.go lazyMapEvaluation: evaluate every value of the map.
The nested-map branch of the source is not modelled since GoValue
has no nested-map constructor (no claim involves nested maps). -/
def lazyMapEvaluation (data : GoMap) : GoMap :=
  data.map (fun kv => (kv.1, lazyValueEvaluation kv.2))

/-- The per-node attributes of an OopsError (error.go struct fields other
than the cause). Go time.Time and time.Duration are modelled as integers
with zero value 0. A request or response snapshot is an opaque payload
string together with the include-body flag. -/
structure OAttrs : Type where
  msg : String := ""
  code : String := ""
  time : Int := 0
  duration : Int := 0
  domain : String := ""
  tags : List String := []
  context : GoMap := []
  trace : String := ""
  span : String := ""
  hint : String := ""
  pub : String := ""
  owner : String := ""
  userID : String := ""
  userData : GoMap := []
  tenantID : String := ""
  tenantData : GoMap := []
  req : Option (String × Bool) := none
  res : Option (String × Bool) := none
  stacktrace : Option (List String) := none
  deriving Repr, DecidableEq

/-- A Go error value, as far as this library observes it:
either a foreign error (whose Unwrap, if any, yields its cause),
or a sealed OopsError node with its attributes and optional cause. -/
inductive OErr : Type where
  | foreign : String → OErr
  | foreignWrap : String → OErr → OErr
  | oopsNil : OAttrs → OErr
  | oopsWrap : OAttrs → OErr → OErr
  deriving Repr, DecidableEq

/-- An OopsError value: its attributes and the wrapped cause (err field). -/
structure OopsError : Type where
  attrs : OAttrs
  err : Option OErr
  deriving Repr, DecidableEq

/-- View a sealed node as a Go error value. -/
def OopsError.toErr (o : OopsError) : OErr :=
  match o.err with
  | none => OErr.oopsNil o.attrs
  | some c => OErr.oopsWrap o.attrs c

/-- helpers.go AsOops, an alias of errors.As with target OopsError:
the error itself if it is an OopsError, else the result of unwrapping
repeatedly; none when no OopsError occurs in the unwrap chain. -/
def AsOops : OErr → Option OopsError
  | OErr.foreign _ => none
  | OErr.foreignWrap _ c => AsOops c
  | OErr.oopsNil a => some ⟨a, none⟩
  | OErr.oopsWrap a c => some ⟨a, some c⟩

/-- Size bound used for termination of the chain walkers: the node found
by AsOops has a strictly smaller cause than the searched error. -/
theorem asOops_size (e : OErr) (child : OopsError) (h : AsOops e = some child) :
    sizeOf child.err < 1 + sizeOf e := by
  induction e with
  | foreign m => simp [AsOops] at h
  | foreignWrap m c ih =>
      simp only [AsOops] at h
      have := ih h
      simp only [OErr.foreignWrap.sizeOf_spec]
      omega
  | oopsNil a =>
      simp only [AsOops, Option.some.injEq] at h
      subst h
      simp only [OErr.oopsNil.sizeOf_spec]
      simp
  | oopsWrap a c ih =>
      simp only [AsOops, Option.some.injEq] at h
      subst h
      simp only [OErr.oopsWrap.sizeOf_spec]
      simp

/-- utils.go coalesceOrEmpty: the first value different from the zero
value z, or z when there is none (lo.Coalesce with the ok flag dropped). -/
def coalesceOrEmpty {T : Type} [DecidableEq T] (z : T) (vs : List T) : T :=
  match vs.find? (fun v => v ≠ z) with
  | some v => v
  | none => z

/-- kv.go getDeepestErrorAttribute: the deepest non-zero value of the
attribute along the chain, falling back outward. The zero value of the
attribute type is passed explicitly as z. -/
def getDeepestErrorAttribute {T : Type} [DecidableEq T] (z : T)
    (err : OopsError) (getter : OopsError → T) : T :=
  match h : err.err with
  | none => getter err
  | some e =>
    match h2 : AsOops e with
    | some child => coalesceOrEmpty z [getDeepestErrorAttribute z child getter, getter err]
    | none => getter err
termination_by sizeOf err.err
decreasing_by
  simp only [h]
  exact asOops_size e child h2

/-- kv.go mergeNestedErrorMap: merge the per-node maps of the chain,
assigning the current node map first and the merged child map second,
so that deeper bindings overwrite on key collision. -/
def mergeNestedErrorMap (err : OopsError) (getter : OopsError → GoMap) : GoMap :=
  match h : err.err with
  | none => getter err
  | some e =>
    match h2 : AsOops e with
    | some child => assignMap (assignMap [] (getter err)) (mergeNestedErrorMap child getter)
    | none => getter err
termination_by sizeOf err.err
decreasing_by
  simp only [h]
  exact asOops_size e child h2

/-- error.go recursive: visit the node, then, while the visitor keeps
returning true, the chain of OopsError nodes discoverable through the
cause. The Go closure state is threaded explicitly. -/
def recursiveWalk {S : Type} (tap : S → OopsError → S × Bool) (s : S) (err : OopsError) : S :=
  let r := tap s err
  if !r.2 then r.1
  else
    match h : err.err with
    | none => r.1
    | some e =>
      match h2 : AsOops e with
      | some child => recursiveWalk tap r.1 child
      | none => r.1
termination_by sizeOf err.err
decreasing_by
  simp only [h]
  exact asOops_size e child h2

/-- lo.Uniq: deduplicate a list keeping the first occurrence of each
element, preserving order. -/
def loUniqAux (seen : List String) : List String → List String
  | [] => []
  | x :: xs => if seen.contains x then loUniqAux seen xs else x :: loUniqAux (x :: seen) xs

/-- lo.Uniq entry point. -/
def loUniq (l : List String) : List String := loUniqAux [] l

/-- Message of a Go error value. A foreign error reports its own message;
a sealed node composes its message with the message of its cause exactly
as OopsError.Error does. -/
def OErr.errorMsg : OErr → String
  | OErr.foreign m => m
  | OErr.foreignWrap m _ => m
  | OErr.oopsNil a => a.msg
  | OErr.oopsWrap a c => if a.msg = "" then c.errorMsg else a.msg ++ ": " ++ c.errorMsg

/-- error.go OopsError.Error: with a cause, the cause message alone when
the node message is empty, else message, colon, space, cause message;
without a cause, the bare message. -/
def OopsError.Error (o : OopsError) : String :=
  match o.err with
  | none => o.attrs.msg
  | some e => if o.attrs.msg = "" then e.errorMsg else o.attrs.msg ++ ": " ++ e.errorMsg

/-- error.go OopsError.Code. -/
def OopsError.Code (o : OopsError) : String :=
  getDeepestErrorAttribute "" o (fun e => e.attrs.code)

/-- error.go OopsError.Time. -/
def OopsError.Time (o : OopsError) : Int :=
  getDeepestErrorAttribute 0 o (fun e => e.attrs.time)

/-- error.go OopsError.Duration. -/
def OopsError.Duration (o : OopsError) : Int :=
  getDeepestErrorAttribute 0 o (fun e => e.attrs.duration)

/-- error.go OopsError.Domain. -/
def OopsError.Domain (o : OopsError) : String :=
  getDeepestErrorAttribute "" o (fun e => e.attrs.domain)

/-- error.go OopsError.Tags: concatenate the tags of every node of the
chain in walk order, then deduplicate with lo.Uniq. -/
def OopsError.Tags (o : OopsError) : List String :=
  loUniq (recursiveWalk (fun acc e => (acc ++ e.attrs.tags, true)) [] o)

/-- error.go OopsError.HasTag: walk the chain, marking found when a node
holds the tag in its own tag list, and continue only while not found. -/
def OopsError.HasTag (o : OopsError) (tag : String) : Bool :=
  recursiveWalk
    (fun found e =>
      let found2 := if e.attrs.tags.contains tag then true else found
      (found2, !found2))
    false o

/-- error.go OopsError.Context: merge the per-node context maps, then
evaluate lazy values, then dereference pointers (with the global toggle
at its default). -/
def OopsError.Context (o : OopsError) : GoMap :=
  dereferencePointers DereferencePointersDefault
    (lazyMapEvaluation
      (mergeNestedErrorMap o (fun e => e.attrs.context)))

/-- error.go OopsError.Trace: the deepest non-empty trace; when every
node leaves it empty, a freshly generated ULID. The generated ULID is
passed as a parameter since its production is nondeterministic. -/
def OopsError.Trace (o : OopsError) (freshUlid : String) : String :=
  let trace := getDeepestErrorAttribute "" o (fun e => e.attrs.trace)
  if trace ≠ "" then trace else freshUlid

/-- error.go OopsError.Span: the span of the current node alone. -/
def OopsError.Span (o : OopsError) : String :=
  o.attrs.span

/-- error.go OopsError.Hint. -/
def OopsError.Hint (o : OopsError) : String :=
  getDeepestErrorAttribute "" o (fun e => e.attrs.hint)

/-- error.go OopsError.Public. -/
def OopsError.Public (o : OopsError) : String :=
  getDeepestErrorAttribute "" o (fun e => e.attrs.pub)

/-- error.go OopsError.Owner. -/
def OopsError.Owner (o : OopsError) : String :=
  getDeepestErrorAttribute "" o (fun e => e.attrs.owner)

/-- error.go OopsError.User: the deepest user id together with the
merged, lazily evaluated and dereferenced user data map. -/
def OopsError.User (o : OopsError) : String × GoMap :=
  ( getDeepestErrorAttribute "" o (fun e => e.attrs.userID),
    dereferencePointers DereferencePointersDefault
      (lazyMapEvaluation
        (mergeNestedErrorMap o (fun e => e.attrs.userData))) )

/-- error.go OopsError.Tenant: the deepest tenant id together with the
merged, lazily evaluated and dereferenced tenant data map. -/
def OopsError.Tenant (o : OopsError) : String × GoMap :=
  ( getDeepestErrorAttribute "" o (fun e => e.attrs.tenantID),
    dereferencePointers DereferencePointersDefault
      (lazyMapEvaluation
        (mergeNestedErrorMap o (fun e => e.attrs.tenantData))) )

/-- error.go OopsError.request: the deepest non-nil request snapshot. -/
def OopsError.requestAttr (o : OopsError) : Option (String × Bool) :=
  getDeepestErrorAttribute none o (fun e => e.attrs.req)

/-- error.go OopsError.response: the deepest non-nil response snapshot. -/
def OopsError.responseAttr (o : OopsError) : Option (String × Bool) :=
  getDeepestErrorAttribute none o (fun e => e.attrs.res)

/-- The chain of OopsError nodes in walk order (outermost first), as the
spec describes the depth-first traversal: the node itself, then the nodes
discoverable through its cause via AsOops. -/
def chainNodes (err : OopsError) : List OopsError :=
  err ::
    (match h : err.err with
     | none => []
     | some e =>
       match h2 : AsOops e with
       | some child => chainNodes child
       | none => [])
termination_by sizeOf err.err
decreasing_by
  simp only [h]
  exact asOops_size e child h2

/-- First defined value of a list of options. -/
def firstSome {α : Type} : List (Option α) → Option α
  | [] => none
  | some v :: _ => some v
  | none :: rest => firstSome rest

/-- Keys of a map, in entry order. -/
def mapKeys (m : GoMap) : List String := m.map (fun kv => kv.1)

theorem mapGet_nil (k : String) : mapGet [] k = none := rfl

theorem find?_filter_ne (m : GoMap) (k k' : String) (hne : k' ≠ k) :
    (m.filter (fun kv => decide (kv.1 ≠ k))).find? (fun kv => kv.1 == k') =
      m.find? (fun kv => kv.1 == k') := by
  induction m with
  | nil => rfl
  | cons kv rest ih =>
      rw [List.filter_cons]
      by_cases hk : kv.1 = k
      · have h1 : (decide (kv.1 ≠ k)) = false := by simp [hk]
        have h2 : (kv.1 == k') = false := by
          rw [beq_eq_false_iff_ne, hk]
          exact fun hc => hne hc.symm
        rw [h1]
        simp only [Bool.false_eq_true, if_false]
        rw [ih, List.find?_cons_of_neg _ (by simp [h2])]
      · have h1 : (decide (kv.1 ≠ k)) = true := by simp [hk]
        rw [h1, if_pos rfl]
        by_cases hk' : kv.1 = k'
        · rw [List.find?_cons_of_pos _ (by simp [hk']),
            List.find?_cons_of_pos _ (by simp [hk'])]
        · have h2 : (kv.1 == k') = false := by simp [hk']
          rw [List.find?_cons_of_neg _ (by simp [h2]),
            List.find?_cons_of_neg _ (by simp [h2]), ih]

theorem mapGet_mapSet (m : GoMap) (k k' : String) (v : GoValue) :
    mapGet (mapSet m k v) k' = if k' = k then some v else mapGet m k' := by
  by_cases h : k' = k
  · subst h
    simp [mapGet, mapSet, List.find?_cons_of_pos]
  · unfold mapGet mapSet
    have hbk : ((k, v).1 == k') = false := by
      rw [beq_eq_false_iff_ne]
      exact fun hc => h hc.symm
    rw [List.find?_cons_of_neg _ (by simp [hbk]), find?_filter_ne m k k' h, if_neg h]

theorem mapGet_assignMap (s : GoMap) (d : GoMap) (k : String) :
    mapGet (assignMap d s) k =
      match (s.reverse.find? (fun kv => kv.1 == k)) with
      | some kv => some kv.2
      | none => mapGet d k := by
  induction s generalizing d with
  | nil => simp [assignMap]
  | cons kv rest ih =>
      simp only [assignMap, List.foldl] at *
      rw [ih (mapSet d kv.1 kv.2)]
      rw [List.reverse_cons, List.find?_append]
      cases hfind : rest.reverse.find? (fun e => e.1 == k) with
      | some e => simp [hfind, Option.orElse]
      | none =>
          simp only [hfind, Option.none_orElse]
          by_cases hk : kv.1 = k
          · simp [List.find?, hk, mapGet_mapSet]
          · have h2 : (kv.1 == k) = false := by simp [hk]
            have h3 : ¬ (k = kv.1) := fun hc => absurd hc.symm hk
            simp [List.find?, h2, mapGet_mapSet, h3]

/-- Value of the last entry of an association list carrying the key: the
binding that survives a Go for-range copy of the list into a map. -/
def lookupLast (m : GoMap) (k : String) : Option GoValue :=
  match m.reverse.find? (fun kv => kv.1 == k) with
  | some kv => some kv.2
  | none => none

theorem mapGet_assignMap_lookupLast (s : GoMap) (d : GoMap) (k : String) :
    mapGet (assignMap d s) k =
      match lookupLast s k with
      | some v => some v
      | none => mapGet d k := by
  rw [mapGet_assignMap]
  unfold lookupLast
  cases s.reverse.find? (fun kv => kv.1 == k) <;> simp

/-- On a map whose keys are not duplicated, the last binding is the
first (and only) one. -/
theorem lookupLast_eq_mapGet (m : GoMap) (hnd : (mapKeys m).Nodup) (k : String) :
    lookupLast m k = mapGet m k := by
  simp only [mapKeys] at hnd
  unfold lookupLast mapGet
  cases h1 : m.find? (fun kv => kv.1 == k) with
  | none =>
      have hnone : m.reverse.find? (fun kv => kv.1 == k) = none := by
        rw [List.find?_eq_none] at h1 ⊢
        intro x hx
        exact h1 x (List.mem_reverse.mp hx)
      rw [hnone]
  | some e =>
      cases h2 : m.reverse.find? (fun kv => kv.1 == k) with
      | none =>
          rw [List.find?_eq_none] at h2
          exact absurd (List.find?_some h1)
            (by simpa using h2 e (List.mem_reverse.mpr (List.mem_of_find?_eq_some h1)))
      | some e2 =>
          have he : e.1 = k := by simpa using List.find?_some h1
          have he2 : e2.1 = k := by simpa using List.find?_some h2
          have hm : e ∈ m := List.mem_of_find?_eq_some h1
          have hm2 : e2 ∈ m := List.mem_reverse.mp (List.mem_of_find?_eq_some h2)
          have heq : e2 = e := List.inj_on_of_nodup_map hnd hm2 hm (by rw [he2, he])
          rw [heq]

theorem chainNodes_none (o : OopsError) (h : o.err = none) : chainNodes o = [o] := by
  rw [chainNodes]
  split
  · rfl
  next e heq =>
    rw [h] at heq
    cases heq

theorem chainNodes_foreign (o : OopsError) (e : OErr) (h : o.err = some e)
    (h2 : AsOops e = none) : chainNodes o = [o] := by
  rw [chainNodes]
  split
  · rfl
  next e2 heq =>
    rw [h] at heq
    cases heq
    split
    next child2 heq2 => rw [h2] at heq2; cases heq2
    next => rfl

theorem chainNodes_cons (o : OopsError) (e : OErr) (child : OopsError)
    (h : o.err = some e) (h2 : AsOops e = some child) :
    chainNodes o = o :: chainNodes child := by
  rw [chainNodes]
  split
  next heq => rw [h] at heq; cases heq
  next e2 heq =>
    rw [h] at heq
    cases heq
    split
    next child2 heq2 =>
      rw [h2] at heq2
      cases heq2
      rfl
    next heq2 => rw [h2] at heq2; cases heq2

theorem getDeepest_none {T : Type} [DecidableEq T] (z : T) (g : OopsError → T)
    (o : OopsError) (h : o.err = none) : getDeepestErrorAttribute z o g = g o := by
  rw [getDeepestErrorAttribute]
  split
  · rfl
  next e heq =>
    rw [h] at heq
    cases heq

theorem getDeepest_foreign {T : Type} [DecidableEq T] (z : T) (g : OopsError → T)
    (o : OopsError) (e : OErr) (h : o.err = some e) (h2 : AsOops e = none) :
    getDeepestErrorAttribute z o g = g o := by
  rw [getDeepestErrorAttribute]
  split
  · rfl
  next e2 heq =>
    rw [h] at heq
    cases heq
    split
    next child2 heq2 => rw [h2] at heq2; cases heq2
    next => rfl

theorem getDeepest_cons {T : Type} [DecidableEq T] (z : T) (g : OopsError → T)
    (o : OopsError) (e : OErr) (child : OopsError)
    (h : o.err = some e) (h2 : AsOops e = some child) :
    getDeepestErrorAttribute z o g =
      coalesceOrEmpty z [getDeepestErrorAttribute z child g, g o] := by
  rw [getDeepestErrorAttribute]
  split
  next heq => rw [h] at heq; cases heq
  next e2 heq =>
    rw [h] at heq
    cases heq
    split
    next child2 heq2 =>
      rw [h2] at heq2
      cases heq2
      rfl
    next heq2 => rw [h2] at heq2; cases heq2

theorem mergeNested_none (o : OopsError) (g : OopsError → GoMap) (h : o.err = none) :
    mergeNestedErrorMap o g = g o := by
  rw [mergeNestedErrorMap]
  split
  · rfl
  next e heq =>
    rw [h] at heq
    cases heq

theorem mergeNested_foreign (o : OopsError) (g : OopsError → GoMap) (e : OErr)
    (h : o.err = some e) (h2 : AsOops e = none) : mergeNestedErrorMap o g = g o := by
  rw [mergeNestedErrorMap]
  split
  · rfl
  next e2 heq =>
    rw [h] at heq
    cases heq
    split
    next child2 heq2 => rw [h2] at heq2; cases heq2
    next => rfl

theorem mergeNested_cons (o : OopsError) (g : OopsError → GoMap) (e : OErr)
    (child : OopsError) (h : o.err = some e) (h2 : AsOops e = some child) :
    mergeNestedErrorMap o g =
      assignMap (assignMap [] (g o)) (mergeNestedErrorMap child g) := by
  rw [mergeNestedErrorMap]
  split
  next heq => rw [h] at heq; cases heq
  next e2 heq =>
    rw [h] at heq
    cases heq
    split
    next child2 heq2 =>
      rw [h2] at heq2
      cases heq2
      rfl
    next heq2 => rw [h2] at heq2; cases heq2

theorem recursiveWalk_stop {S : Type} (tap : S → OopsError → S × Bool) (s : S)
    (o : OopsError) (h : (tap s o).2 = false) : recursiveWalk tap s o = (tap s o).1 := by
  rw [recursiveWalk]
  simp [h]

theorem recursiveWalk_none {S : Type} (tap : S → OopsError → S × Bool) (s : S)
    (o : OopsError) (h : o.err = none) : recursiveWalk tap s o = (tap s o).1 := by
  rw [recursiveWalk]
  cases hc : (tap s o).2 with
  | false => simp [hc]
  | true =>
      simp only [hc, Bool.not_true, Bool.false_eq_true, if_false]
      split
      · rfl
      next e2 heq =>
        rw [h] at heq
        cases heq

theorem recursiveWalk_foreign {S : Type} (tap : S → OopsError → S × Bool) (s : S)
    (o : OopsError) (e : OErr) (h : o.err = some e) (h2 : AsOops e = none) :
    recursiveWalk tap s o = (tap s o).1 := by
  rw [recursiveWalk]
  cases hc : (tap s o).2 with
  | false => simp [hc]
  | true =>
      simp only [hc, Bool.not_true, Bool.false_eq_true, if_false]
      split
      · rfl
      next e2 heq =>
        rw [h] at heq
        cases heq
        split
        next child2 heq2 => rw [h2] at heq2; cases heq2
        next => rfl

theorem recursiveWalk_cons {S : Type} (tap : S → OopsError → S × Bool) (s : S)
    (o : OopsError) (e : OErr) (child : OopsError)
    (h : o.err = some e) (h2 : AsOops e = some child) (hc : (tap s o).2 = true) :
    recursiveWalk tap s o = recursiveWalk tap (tap s o).1 child := by
  rw [recursiveWalk]
  simp only [hc, Bool.not_true, Bool.false_eq_true, if_false]
  split
  next heq => rw [h] at heq; cases heq
  next e2 heq =>
    rw [h] at heq
    cases heq
    split
    next child2 heq2 =>
      rw [h2] at heq2
      cases heq2
      rfl
    next heq2 => rw [h2] at heq2; cases heq2

theorem coalesceOrEmpty_singleton {T : Type} [DecidableEq T] (z v : T) :
    coalesceOrEmpty z [v] = v := by
  by_cases h : v = z
  · simp [coalesceOrEmpty, List.find?, h]
  · simp [coalesceOrEmpty, List.find?, h]

theorem coalesceOrEmpty_append {T : Type} [DecidableEq T] (z : T) (l1 l2 : List T) :
    coalesceOrEmpty z (l1 ++ l2) = coalesceOrEmpty z (coalesceOrEmpty z l1 :: l2) := by
  induction l1 with
  | nil => simp [coalesceOrEmpty, List.find?]
  | cons x xs ih =>
      by_cases hx : x = z
      · subst hx
        simpa [coalesceOrEmpty, List.find?] using ih
      · simp [coalesceOrEmpty, List.find?, hx]

/-- Deepest-wins resolution, characterized over the chain: the result is
the coalesce of the per-node attribute values taken innermost first. -/
theorem getDeepest_eq_coalesce {T : Type} [DecidableEq T] (z : T) (g : OopsError → T)
    (o : OopsError) :
    getDeepestErrorAttribute z o g = coalesceOrEmpty z ((chainNodes o).reverse.map g) := by
  induction o using chainNodes.induct with
  | case1 o ih =>
      cases h : o.err with
      | none =>
          rw [getDeepest_none z g o h, chainNodes_none o h]
          simp [coalesceOrEmpty_singleton]
      | some e =>
          cases h2 : AsOops e with
          | none =>
              rw [getDeepest_foreign z g o e h h2, chainNodes_foreign o e h h2]
              simp [coalesceOrEmpty_singleton]
          | some child =>
              rw [getDeepest_cons z g o e child h h2, chainNodes_cons o e child h h2,
                List.reverse_cons, List.map_append, coalesceOrEmpty_append,
                ih e h child h2]
              simp

/-- foldl of list append starting from an accumulator. -/
theorem foldl_append_join {α β : Type} (f : α → List β) (l : List α) (acc : List β) :
    l.foldl (fun a x => a ++ f x) acc = acc ++ (l.map f).join := by
  induction l generalizing acc with
  | nil => simp
  | cons x xs ih => simp [ih]

/-- A walk whose visitor always continues is a fold over the chain. -/
theorem recursiveWalk_always {S : Type} (f : S → OopsError → S) (s : S) (o : OopsError) :
    recursiveWalk (fun acc e => (f acc e, true)) s o = (chainNodes o).foldl f s := by
  induction o using chainNodes.induct generalizing s with
  | case1 o ih =>
      cases h : o.err with
      | none =>
          rw [recursiveWalk_none _ s o h, chainNodes_none o h]
          simp
      | some e =>
          cases h2 : AsOops e with
          | none =>
              rw [recursiveWalk_foreign _ s o e h h2, chainNodes_foreign o e h h2]
              simp
          | some child =>
              rw [recursiveWalk_cons _ s o e child h h2 rfl, chainNodes_cons o e child h h2,
                ih e h child h2]
              simp

/-- The tag-search walk of HasTag computes chain-wide membership. -/
theorem recursiveWalk_hasTag (t : String) (b : Bool) (o : OopsError) :
    recursiveWalk
      (fun found e =>
        let found2 := if e.attrs.tags.contains t then true else found
        (found2, !found2))
      b o =
      (b || (chainNodes o).any (fun n => n.attrs.tags.contains t)) := by
  have hhead : ∀ o2 : OopsError, ∃ rest, chainNodes o2 = o2 :: rest := by
    intro o2
    rw [chainNodes]
    exact ⟨_, rfl⟩
  induction o using chainNodes.induct generalizing b with
  | case1 o ih =>
      cases hb : b with
      | true =>
          rw [recursiveWalk_stop _ _ o (by simp)]
          obtain ⟨rest, hr⟩ := hhead o
          simp
      | false =>
          cases hc : o.attrs.tags.contains t with
          | true =>
              rw [recursiveWalk_stop _ _ o (by simp only [hc]; simp)]
              obtain ⟨rest, hr⟩ := hhead o
              rw [hr, List.any_cons]
              simp only [hc]
              simp
          | false =>
              cases h : o.err with
              | none =>
                  rw [recursiveWalk_none _ _ o h, chainNodes_none o h]
                  simp only [List.any_cons, List.any_nil, hc]
                  simp
              | some e =>
                  cases h2 : AsOops e with
                  | none =>
                      rw [recursiveWalk_foreign _ _ o e h h2, chainNodes_foreign o e h h2]
                      simp only [List.any_cons, List.any_nil, hc]
                      simp
                  | some child =>
                      rw [recursiveWalk_cons _ _ o e child h h2 (by simp only [hc]; simp),
                        chainNodes_cons o e child h h2]
                      rw [show
                        ((fun found e =>
                          let found2 := if e.attrs.tags.contains t then true else found
                          (found2, !found2)) false o).1 = false by simp only [hc]; simp]
                      rw [ih e h child h2, List.any_cons]
                      simp only [hc]
                      simp

/-- Tags, characterized over the chain: the concatenation of the per-node
tag lists in walk order, deduplicated keeping first occurrences. -/
theorem tags_eq_uniq_join (o : OopsError) :
    o.Tags = loUniq (((chainNodes o).map (fun n => n.attrs.tags)).join) := by
  unfold OopsError.Tags
  rw [recursiveWalk_always, foldl_append_join]
  simp

/-- HasTag, characterized over the chain: membership in some node. -/
theorem hasTag_eq_any (o : OopsError) (t : String) :
    o.HasTag t = (chainNodes o).any (fun n => n.attrs.tags.contains t) := by
  unfold OopsError.HasTag
  rw [recursiveWalk_hasTag]
  simp

theorem nodup_mapSet (m : GoMap) (k : String) (v : GoValue)
    (hnd : (mapKeys m).Nodup) : (mapKeys (mapSet m k v)).Nodup := by
  unfold mapSet mapKeys at *
  rw [List.map_cons, List.nodup_cons]
  constructor
  · intro hmem
    obtain ⟨kv, hkv, hfst⟩ := List.mem_map.mp hmem
    have := List.of_mem_filter hkv
    simp only [decide_eq_true_eq] at this
    exact this hfst
  · exact ((List.filter_sublist m).map (fun kv => kv.1)).nodup hnd

theorem nodup_assignMap (d s : GoMap) (hnd : (mapKeys d).Nodup) :
    (mapKeys (assignMap d s)).Nodup := by
  induction s generalizing d with
  | nil => exact hnd
  | cons kv rest ih =>
      unfold assignMap at *
      exact ih (mapSet d kv.1 kv.2) (nodup_mapSet d kv.1 kv.2 hnd)

theorem nodup_mergeNested (o : OopsError) (g : OopsError → GoMap)
    (hnd : ∀ n ∈ chainNodes o, (mapKeys (g n)).Nodup) :
    (mapKeys (mergeNestedErrorMap o g)).Nodup := by
  cases h : o.err with
  | none =>
      rw [mergeNested_none o g h]
      exact hnd o (by rw [chainNodes_none o h]; exact List.mem_singleton.mpr rfl)
  | some e =>
      cases h2 : AsOops e with
      | none =>
          rw [mergeNested_foreign o g e h h2]
          exact hnd o (by rw [chainNodes_foreign o e h h2]; exact List.mem_singleton.mpr rfl)
      | some child =>
          rw [mergeNested_cons o g e child h h2]
          exact nodup_assignMap _ _ (nodup_assignMap [] (g o) (by simp [mapKeys]))

theorem mem_loUniqAux (seen : List String) (l : List String) (x : String) :
    x ∈ loUniqAux seen l ↔ x ∈ l ∧ x ∉ seen := by
  induction l generalizing seen with
  | nil => simp [loUniqAux]
  | cons y ys ih =>
      by_cases hy : seen.contains y
      · rw [loUniqAux, if_pos hy, ih]
        constructor
        · exact fun ⟨h1, h2⟩ => ⟨List.mem_cons_of_mem y h1, h2⟩
        · rintro ⟨h1, h2⟩
          rcases List.mem_cons.mp h1 with h3 | h3
          · subst h3
            exact absurd (by simpa using hy) h2
          · exact ⟨h3, h2⟩
      · rw [loUniqAux, if_neg hy]
        constructor
        · intro hmem
          rcases List.mem_cons.mp hmem with h3 | h3
          · subst h3
            exact ⟨List.mem_cons_self _ _, by simpa using hy⟩
          · have := (ih (y :: seen)).mp h3
            exact ⟨List.mem_cons_of_mem y this.1, fun hc => this.2 (List.mem_cons_of_mem y hc)⟩
        · rintro ⟨h1, h2⟩
          rcases List.mem_cons.mp h1 with h3 | h3
          · subst h3
            exact List.mem_cons_self _ _
          · by_cases hxy : x = y
            · subst hxy
              exact List.mem_cons_self _ _
            · exact List.mem_cons_of_mem _
                ((ih (y :: seen)).mpr ⟨h3, by simp [hxy, h2]⟩)

theorem nodup_loUniqAux (seen : List String) (l : List String) :
    (loUniqAux seen l).Nodup := by
  induction l generalizing seen with
  | nil => exact List.nodup_nil
  | cons y ys ih =>
      by_cases hy : seen.contains y
      · rw [loUniqAux, if_pos hy]
        exact ih seen
      · rw [loUniqAux, if_neg hy, List.nodup_cons]
        refine ⟨fun hc => ?_, ih (y :: seen)⟩
        exact ((mem_loUniqAux (y :: seen) ys y).mp hc).2 (List.mem_cons_self _ _)

theorem sublist_loUniqAux (seen : List String) (l : List String) :
    (loUniqAux seen l).Sublist l := by
  induction l generalizing seen with
  | nil => exact List.Sublist.refl []
  | cons y ys ih =>
      by_cases hy : seen.contains y
      · rw [loUniqAux, if_pos hy]
        exact (ih seen).cons y
      · rw [loUniqAux, if_neg hy]
        exact (ih (y :: seen)).cons₂ y

theorem mem_loUniq (l : List String) (x : String) : x ∈ loUniq l ↔ x ∈ l := by
  rw [loUniq, mem_loUniqAux]
  simp

theorem nodup_loUniq (l : List String) : (loUniq l).Nodup := nodup_loUniqAux [] l

theorem sublist_loUniq (l : List String) : (loUniq l).Sublist l := sublist_loUniqAux [] l

/-- Merge-wins-inner resolution, characterized over the chain: a key
resolves to the binding of the deepest node carrying it, provided each
per-node map binds each key at most once (Go maps always do). -/
theorem mergeNested_get (o : OopsError) (g : OopsError → GoMap) (k : String)
    (hnd : ∀ n ∈ chainNodes o, (mapKeys (g n)).Nodup) :
    mapGet (mergeNestedErrorMap o g) k =
      firstSome ((chainNodes o).reverse.map (fun n => mapGet (g n) k)) := by
  have hfs : ∀ (l : List (Option GoValue)) (v : Option GoValue),
      firstSome (l ++ [v]) =
        match firstSome l with
        | some w => some w
        | none => v := by
    intro l v
    induction l with
    | nil => cases v <;> simp [firstSome]
    | cons x xs ihl =>
        cases x <;> simp [firstSome, ihl]
  induction o using chainNodes.induct with
  | case1 o ih =>
      cases h : o.err with
      | none =>
          rw [mergeNested_none o g h, chainNodes_none o h]
          cases hg : mapGet (g o) k <;> simp [firstSome, hg]
      | some e =>
          cases h2 : AsOops e with
          | none =>
              rw [mergeNested_foreign o g e h h2, chainNodes_foreign o e h h2]
              cases hg : mapGet (g o) k <;> simp [firstSome, hg]
          | some child =>
              have hnd2 : ∀ n ∈ chainNodes child, (mapKeys (g n)).Nodup := by
                intro n hn
                apply hnd
                rw [chainNodes_cons o e child h h2]
                exact List.mem_cons_of_mem _ hn
              have hndo : (mapKeys (g o)).Nodup := by
                apply hnd
                rw [chainNodes_cons o e child h h2]
                exact List.mem_cons_self _ _
              rw [mergeNested_cons o g e child h h2, chainNodes_cons o e child h h2]
              rw [mapGet_assignMap_lookupLast,
                lookupLast_eq_mapGet _ (nodup_mergeNested child g hnd2)]
              rw [ih e h child h2 hnd2, List.reverse_cons, List.map_append]
              simp only [List.map_cons, List.map_nil]
              rw [hfs]
              cases hmerge :
                  firstSome ((chainNodes child).reverse.map fun n => mapGet (g n) k) with
              | some w => simp
              | none =>
                  simp only
                  rw [mapGet_assignMap_lookupLast, lookupLast_eq_mapGet (g o) hndo]
                  cases hg : mapGet (g o) k <;> simp [mapGet]

/-! Builder model. Go maps and slice backing arrays are references, so
aliasing between builders is observable; the heap makes it explicit.
Addresses index the two stores. -/

/-- The mutable store: Go map objects and slice backing arrays. -/
structure Heap : Type where
  maps : List GoMap
  arrs : List (List String)
  deriving Repr

def Heap.getMap (h : Heap) (a : Nat) : GoMap := h.maps.getD a []

def Heap.setMap (h : Heap) (a : Nat) (m : GoMap) : Heap :=
  { h with maps := h.maps.set a m }

def Heap.allocMap (h : Heap) (m : GoMap) : Heap × Nat :=
  ({ h with maps := h.maps ++ [m] }, h.maps.length)

def Heap.getArr (h : Heap) (a : Nat) : List String := h.arrs.getD a []

def Heap.setArr (h : Heap) (a : Nat) (l : List String) : Heap :=
  { h with arrs := h.arrs.set a l }

def Heap.allocArr (h : Heap) (l : List String) : Heap × Nat :=
  ({ h with arrs := h.arrs ++ [l] }, h.arrs.length)

/-- A Go slice header: backing array address, length, capacity. -/
structure GoSlice : Type where
  arr : Nat
  len : Nat
  cap : Nat
  deriving Repr, DecidableEq

/-- The elements a slice exposes. -/
def sliceView (h : Heap) (s : GoSlice) : List String := (h.getArr s.arr).take s.len

/-- Write xs into arr starting at position start, in place. -/
def writeRange (arr : List String) (start : Nat) (xs : List String) : List String :=
  arr.take start ++ xs ++ arr.drop (start + xs.length)

/-- Capacity growth of the Go runtime growslice for small slices: the
needed capacity when it exceeds twice the old one, else the double. -/
def growCap (oldCap needed : Nat) : Nat :=
  if needed > 2 * oldCap then needed else 2 * oldCap

/-- Go append: reuse the backing array in place when the capacity
suffices, else allocate a grown array and copy. Spare capacity cells are
padded with the empty string. -/
def goAppend (h : Heap) (s : GoSlice) (xs : List String) : Heap × GoSlice :=
  let needed := s.len + xs.length
  if needed ≤ s.cap then
    (h.setArr s.arr (writeRange (h.getArr s.arr) s.len xs), ⟨s.arr, needed, s.cap⟩)
  else
    let newcap := growCap s.cap needed
    let contents := (h.getArr s.arr).take s.len ++ xs
    let h2a := h.allocArr (contents ++ List.replicate (newcap - needed) "")
    (h2a.1, ⟨h2a.2, needed, newcap⟩)

/-- builder.go OopsErrorBuilder: the same attributes as a node, with the
maps and the tag slice held by reference. msg, err and stacktrace are
only produced at seal time. -/
structure OopsErrorBuilder : Type where
  code : String
  time : Int
  duration : Int
  domain : String
  tags : GoSlice
  context : Nat
  trace : String
  span : String
  hint : String
  pub : String
  owner : String
  userID : String
  userData : Nat
  tenantID : String
  tenantData : Nat
  req : Option (String × Bool)
  res : Option (String × Bool)
  deriving Repr, DecidableEq

/-- builder.go new(): zero scalars, fresh empty maps, empty tag slice.
The builder time is time.Now(), passed as the now parameter. -/
def newBuilder (h : Heap) (now : Int) : Heap × OopsErrorBuilder :=
  let hc := h.allocMap []
  let hu := hc.1.allocMap []
  let ht := hu.1.allocMap []
  let ha := ht.1.allocArr []
  (ha.1,
    { code := "", time := now, duration := 0, domain := ""
      tags := ⟨ha.2, 0, 0⟩
      context := hc.2
      trace := "", span := "", hint := "", pub := "", owner := ""
      userID := "", userData := hu.2, tenantID := "", tenantData := ht.2
      req := none, res := none })

/-- builder.go copy(): scalars are copied, the three maps are copied
into fresh map objects (lo.Assign of an empty map with the contents),
and the tag slice header is shared. -/
def OopsErrorBuilder.copy (h : Heap) (o : OopsErrorBuilder) : Heap × OopsErrorBuilder :=
  let hc := h.allocMap (assignMap [] (h.getMap o.context))
  let hu := hc.1.allocMap (assignMap [] (hc.1.getMap o.userData))
  let ht := hu.1.allocMap (assignMap [] (hu.1.getMap o.tenantData))
  (ht.1, { o with context := hc.2, userData := hu.2, tenantData := ht.2 })

/-- builder.go With: walk the argument list two at a time, writing each
pair whose key is a string into the context map of the copy; a trailing
unmatched key is skipped. -/
def withPairs (m : GoMap) : List GoValue → GoMap
  | k :: v :: rest =>
      withPairs
        (match k with
         | GoValue.str s => mapSet m s v
         | _ => m)
        rest
  | _ => m

/-- Ambient context carrier for WithContext: string-keyed values and the
optional otel trace and span identifiers. -/
structure GoContext : Type where
  values : List (String × GoValue)
  traceID : Option String
  spanID : Option String
  deriving Repr

/-- utils.go contextValueOrNil: the value found for the key, nil when
absent. -/
def contextValueOrNil (ctx : GoContext) (k : String) : GoValue :=
  match ctx.values.find? (fun kv => kv.1 == k) with
  | some kv => kv.2
  | none => GoValue.nilv

/-- One call of any builder setter, with its arguments. Keys of With,
User and Tenant data are arbitrary values, as in the source. -/
inductive SetterCall : Type where
  | code (c : String)
  | timeAt (t : Int)
  | since (now t : Int)
  | duration (d : Int)
  | inDomain (d : String)
  | tags (ts : List String)
  | withKV (kv : List GoValue)
  | withCtx (ctx : GoContext) (keys : List String)
  | trace (t : String)
  | span (s : String)
  | hint (x : String)
  | pub (p : String)
  | owner (x : String)
  | user (id : String) (data : List GoValue)
  | tenant (id : String) (data : List GoValue)
  | request (payload : String) (withBody : Bool)
  | response (payload : String) (withBody : Bool)

/-- builder.go setters: each copies the receiver and modifies the copy,
never the receiver. The heap is threaded explicitly. -/
def applySetter (call : SetterCall) (h : Heap) (o : OopsErrorBuilder) :
    Heap × OopsErrorBuilder :=
  let hc := o.copy h
  let h2 := hc.1
  let o2 := hc.2
  match call with
  | SetterCall.code c => (h2, { o2 with code := c })
  | SetterCall.timeAt t => (h2, { o2 with time := t })
  | SetterCall.since now t => (h2, { o2 with duration := now - t })
  | SetterCall.duration d => (h2, { o2 with duration := d })
  | SetterCall.inDomain d => (h2, { o2 with domain := d })
  | SetterCall.tags ts =>
      let ap := goAppend h2 o2.tags ts
      (ap.1, { o2 with tags := ap.2 })
  | SetterCall.withKV kv =>
      (h2.setMap o2.context (withPairs (h2.getMap o2.context) kv), o2)
  | SetterCall.withCtx ctx keys =>
      let m2 := keys.foldl (fun m k => mapSet m k (contextValueOrNil ctx k))
        (h2.getMap o2.context)
      let h3 := h2.setMap o2.context m2
      let o3 := { o2 with trace := (ctx.traceID.getD o2.trace) }
      (h3, { o3 with span := (ctx.spanID.getD o3.span) })
  | SetterCall.trace t => (h2, { o2 with trace := t })
  | SetterCall.span s => (h2, { o2 with span := s })
  | SetterCall.hint x => (h2, { o2 with hint := x })
  | SetterCall.pub p => (h2, { o2 with pub := p })
  | SetterCall.owner x => (h2, { o2 with owner := x })
  | SetterCall.user id data =>
      (h2.setMap o2.userData (withPairs (h2.getMap o2.userData) data),
        { o2 with userID := id })
  | SetterCall.tenant id data =>
      (h2.setMap o2.tenantData (withPairs (h2.getMap o2.tenantData) data),
        { o2 with tenantID := id })
  | SetterCall.request payload withBody => (h2, { o2 with req := some (payload, withBody) })
  | SetterCall.response payload withBody => (h2, { o2 with res := some (payload, withBody) })

/-- builder.go Wrap: nil cause gives nil; otherwise the copy is sealed
with the cause, a generated span when unset, and a fresh stacktrace.
The generated ULID and the captured stack are nondeterministic inputs,
passed as parameters. -/
def OopsErrorBuilder.Wrap (h : Heap) (o : OopsErrorBuilder) (err : Option OErr)
    (freshUlid : String) (st : List String) : Option OopsError :=
  match err with
  | none => none
  | some e =>
      let hc := o.copy h
      let h2 := hc.1
      let o2 := hc.2
      some
        { attrs :=
            { msg := ""
              code := o2.code, time := o2.time, duration := o2.duration
              domain := o2.domain
              tags := sliceView h2 o2.tags
              context := h2.getMap o2.context
              trace := o2.trace
              span := if o2.span = "" then freshUlid else o2.span
              hint := o2.hint, pub := o2.pub, owner := o2.owner
              userID := o2.userID, userData := h2.getMap o2.userData
              tenantID := o2.tenantID, tenantData := h2.getMap o2.tenantData
              req := o2.req, res := o2.res
              stacktrace := some st }
          err := some e }

/-- builder.go Wrapf: as Wrap, additionally setting the formatted
message (the formatting result is passed as msg). -/
def OopsErrorBuilder.Wrapf (h : Heap) (o : OopsErrorBuilder) (err : Option OErr)
    (msg : String) (freshUlid : String) (st : List String) : Option OopsError :=
  match err with
  | none => none
  | some e =>
      match o.Wrap h (some e) freshUlid st with
      | some node => some { node with attrs := { node.attrs with msg := msg } }
      | none => none

/-- Outcome of the callback run under Recover: normal return, a panic
with an error payload, a panic with a non-error payload, or panic(nil),
which the Go 1.21 runtime replaces by a runtime.PanicNilError before
recover observes it. -/
inductive CbOutcome : Type where
  | normal
  | panicErr (e : OErr)
  | panicValue (v : GoValue)
  | panicNil

/-- fmt %v rendering of a payload value, as far as the model needs it. -/
def formatV : GoValue → String
  | GoValue.nilv => "<nil>"
  | GoValue.str s => s
  | GoValue.int n => toString n
  | GoValue.ptrNil => "<nil>"
  | GoValue.ptrTo _ => "0x1"
  | GoValue.thunk _ => "0x1"

/-- Message of the runtime.PanicNilError produced by panic(nil) under
Go 1.21 and later (the go.mod of the repository requires go 1.22).
Modelled from the Go runtime, not from this repository. -/
def panicNilErrorMessage : String := "panic called with nil argument"

/-- builder.go Recover: nil on normal return; on a panic, the payload is
wrapped when it is an error, else formatted with fmt %v and wrapped. -/
def OopsErrorBuilder.Recover (h : Heap) (o : OopsErrorBuilder) (outcome : CbOutcome)
    (freshUlid : String) (st : List String) : Option OopsError :=
  match outcome with
  | CbOutcome.normal => none
  | CbOutcome.panicErr e => o.Wrap h (some e) freshUlid st
  | CbOutcome.panicValue v => o.Wrap h (some (OErr.foreign (formatV v))) freshUlid st
  | CbOutcome.panicNil => o.Wrap h (some (OErr.foreign panicNilErrorMessage)) freshUlid st

/-- The observable state of a builder: its scalars, the contents of its
three maps, and the elements of its tag slice. -/
structure BuilderObs : Type where
  code : String
  time : Int
  duration : Int
  domain : String
  tags : List String
  context : GoMap
  trace : String
  span : String
  hint : String
  pub : String
  owner : String
  userID : String
  userData : GoMap
  tenantID : String
  tenantData : GoMap
  req : Option (String × Bool)
  res : Option (String × Bool)
  deriving Repr, DecidableEq

/-- Observe a builder through a heap. -/
def observe (h : Heap) (o : OopsErrorBuilder) : BuilderObs :=
  { code := o.code, time := o.time, duration := o.duration, domain := o.domain
    tags := sliceView h o.tags
    context := h.getMap o.context
    trace := o.trace, span := o.span, hint := o.hint, pub := o.pub, owner := o.owner
    userID := o.userID, userData := h.getMap o.userData
    tenantID := o.tenantID, tenantData := h.getMap o.tenantData
    req := o.req, res := o.res }

/-- Well-formedness of a builder with respect to a heap: its map and
array addresses are allocated and its slice is within capacity, the
backing array being as long as the capacity. -/
abbrev validBuilder (h : Heap) (o : OopsErrorBuilder) : Prop :=
  o.context < h.maps.length ∧ o.userData < h.maps.length ∧ o.tenantData < h.maps.length ∧
  o.tags.arr < h.arrs.length ∧ o.tags.len ≤ o.tags.cap ∧
  (h.getArr o.tags.arr).length = o.tags.cap

theorem getD_append_lt {α : Type} (l1 l2 : List α) (d : α) (i : Nat) (hi : i < l1.length) :
    (l1 ++ l2).getD i d = l1.getD i d := by
  simp [List.getD, List.getElem?_append, hi]

theorem getD_append_self {α : Type} (l1 : List α) (x : α) (d : α) :
    (l1 ++ [x]).getD l1.length d = x := by
  simp [List.getD, List.getElem?_append]

theorem getD_set_ne {α : Type} (l : List α) (i j : Nat) (x : α) (d : α) (hne : j ≠ i) :
    (l.set i x).getD j d = l.getD j d := by
  simp [List.getD, List.getElem?_set_ne (fun hc => hne hc.symm)]

theorem getD_set_self {α : Type} (l : List α) (i : Nat) (x : α) (d : α) (hi : i < l.length) :
    (l.set i x).getD i d = x := by
  simp [List.getD, List.getElem?_set_self hi]

theorem getMap_allocMap_lt (h : Heap) (m : GoMap) (a : Nat) (ha : a < h.maps.length) :
    (h.allocMap m).1.getMap a = h.getMap a :=
  getD_append_lt h.maps [m] [] a ha

theorem getMap_allocMap_new (h : Heap) (m : GoMap) :
    (h.allocMap m).1.getMap (h.allocMap m).2 = m :=
  getD_append_self h.maps m []

theorem getArr_allocMap (h : Heap) (m : GoMap) (a : Nat) :
    (h.allocMap m).1.getArr a = h.getArr a := rfl

theorem maps_length_allocMap (h : Heap) (m : GoMap) :
    (h.allocMap m).1.maps.length = h.maps.length + 1 := by
  simp [Heap.allocMap]

theorem allocMap_addr (h : Heap) (m : GoMap) : (h.allocMap m).2 = h.maps.length := rfl

theorem getMap_setMap_ne (h : Heap) (b : Nat) (m : GoMap) (a : Nat) (hne : a ≠ b) :
    (h.setMap b m).getMap a = h.getMap a :=
  getD_set_ne h.maps b a m [] hne

theorem getMap_setMap_self (h : Heap) (b : Nat) (m : GoMap) (hb : b < h.maps.length) :
    (h.setMap b m).getMap b = m :=
  getD_set_self h.maps b m [] hb

theorem getArr_setMap (h : Heap) (b : Nat) (m : GoMap) (a : Nat) :
    (h.setMap b m).getArr a = h.getArr a := rfl

theorem maps_length_setMap (h : Heap) (b : Nat) (m : GoMap) :
    (h.setMap b m).maps.length = h.maps.length := by
  simp [Heap.setMap]

theorem getArr_setArr_ne (h : Heap) (b : Nat) (l : List String) (a : Nat) (hne : a ≠ b) :
    (h.setArr b l).getArr a = h.getArr a :=
  getD_set_ne h.arrs b a l [] hne

theorem getArr_setArr_self (h : Heap) (b : Nat) (l : List String) (hb : b < h.arrs.length) :
    (h.setArr b l).getArr b = l :=
  getD_set_self h.arrs b l [] hb

theorem getMap_setArr (h : Heap) (b : Nat) (l : List String) (a : Nat) :
    (h.setArr b l).getMap a = h.getMap a := rfl

theorem getArr_allocArr_lt (h : Heap) (l : List String) (a : Nat) (ha : a < h.arrs.length) :
    (h.allocArr l).1.getArr a = h.getArr a :=
  getD_append_lt h.arrs [l] [] a ha

theorem getMap_allocArr (h : Heap) (l : List String) (a : Nat) :
    (h.allocArr l).1.getMap a = h.getMap a := rfl

/-- copy leaves every allocated map object unchanged. -/
theorem copy_getMap (h : Heap) (o : OopsErrorBuilder) (a : Nat) (ha : a < h.maps.length) :
    (o.copy h).1.getMap a = h.getMap a := by
  show ((((h.maps ++ [_]) ++ [_]) ++ [_]).getD a []) = h.maps.getD a []
  rw [getD_append_lt _ _ _ _ (by simp; omega), getD_append_lt _ _ _ _ (by simp; omega),
    getD_append_lt _ _ _ _ ha]

/-- copy does not touch the arrays. -/
theorem copy_getArr (h : Heap) (o : OopsErrorBuilder) (a : Nat) :
    (o.copy h).1.getArr a = h.getArr a := rfl

theorem copy_maps_length (h : Heap) (o : OopsErrorBuilder) :
    (o.copy h).1.maps.length = h.maps.length + 3 := by
  show (((h.maps ++ [_]) ++ [_]) ++ [_]).length = _
  simp

theorem copy_arrs_length (h : Heap) (o : OopsErrorBuilder) :
    (o.copy h).1.arrs.length = h.arrs.length := rfl

/-- The field values of the copy: fresh map addresses, shared tag
slice, identical scalars. -/
theorem copy_fields (h : Heap) (o : OopsErrorBuilder) :
    (o.copy h).2.code = o.code ∧ (o.copy h).2.time = o.time ∧
    (o.copy h).2.duration = o.duration ∧ (o.copy h).2.domain = o.domain ∧
    (o.copy h).2.tags = o.tags ∧ (o.copy h).2.trace = o.trace ∧
    (o.copy h).2.span = o.span ∧ (o.copy h).2.hint = o.hint ∧
    (o.copy h).2.pub = o.pub ∧ (o.copy h).2.owner = o.owner ∧
    (o.copy h).2.userID = o.userID ∧ (o.copy h).2.tenantID = o.tenantID ∧
    (o.copy h).2.req = o.req ∧ (o.copy h).2.res = o.res ∧
    (o.copy h).2.context = h.maps.length ∧
    (o.copy h).2.userData = h.maps.length + 1 ∧
    (o.copy h).2.tenantData = h.maps.length + 2 := by
  simp [OopsErrorBuilder.copy, allocMap_addr, maps_length_allocMap]

/-- The context content of the copy is the content of the receiver. -/
theorem copy_context_content (h : Heap) (o : OopsErrorBuilder) :
    (o.copy h).1.getMap ((o.copy h).2.context) = assignMap [] (h.getMap o.context) := by
  simp only [OopsErrorBuilder.copy]
  rw [getMap_allocMap_lt _ _ _ (by simp only [allocMap_addr, maps_length_allocMap]; omega),
    getMap_allocMap_lt _ _ _ (by simp only [allocMap_addr, maps_length_allocMap]; omega),
    getMap_allocMap_new]

theorem copy_userData_content (h : Heap) (o : OopsErrorBuilder)
    (hu : o.userData < h.maps.length) :
    (o.copy h).1.getMap ((o.copy h).2.userData) = assignMap [] (h.getMap o.userData) := by
  simp only [OopsErrorBuilder.copy]
  rw [getMap_allocMap_lt _ _ _ (by simp only [allocMap_addr, maps_length_allocMap]; omega),
    getMap_allocMap_new, getMap_allocMap_lt h _ _ hu]

theorem copy_tenantData_content (h : Heap) (o : OopsErrorBuilder)
    (ht : o.tenantData < h.maps.length) :
    (o.copy h).1.getMap ((o.copy h).2.tenantData) = assignMap [] (h.getMap o.tenantData) := by
  simp only [OopsErrorBuilder.copy]
  rw [getMap_allocMap_new,
    getMap_allocMap_lt _ _ _ (by simp only [maps_length_allocMap]; omega),
    getMap_allocMap_lt h _ _ ht]

theorem goAppend_getMap (h : Heap) (s : GoSlice) (xs : List String) (a : Nat) :
    (goAppend h s xs).1.getMap a = h.getMap a := by
  simp only [goAppend]
  split
  · rfl
  · rfl

theorem goAppend_maps_length (h : Heap) (s : GoSlice) (xs : List String) :
    (goAppend h s xs).1.maps.length = h.maps.length := by
  simp only [goAppend]
  split
  · rfl
  · rfl

theorem goAppend_arrs_length (h : Heap) (s : GoSlice) (xs : List String) :
    h.arrs.length ≤ (goAppend h s xs).1.arrs.length := by
  simp only [goAppend]
  split
  · simp [Heap.setArr]
  · simp [Heap.allocArr]

theorem writeRange_length (arr : List String) (start : Nat) (xs : List String)
    (hfit : start + xs.length ≤ arr.length) :
    (writeRange arr start xs).length = arr.length := by
  unfold writeRange
  simp only [List.length_append, List.length_take, List.length_drop]
  omega

theorem writeRange_take (arr : List String) (start : Nat) (xs : List String)
    (hstart : start ≤ arr.length) :
    (writeRange arr start xs).take start = arr.take start := by
  unfold writeRange
  rw [List.take_append_of_le_length (by simp; omega),
    List.take_append_of_le_length (by simp; omega), List.take_take]
  simp

/-- Appending preserves the length of every previously allocated backing
array, provided the appended-to slice is well formed. -/
theorem goAppend_getArr_length (h : Heap) (s : GoSlice) (xs : List String) (a : Nat)
    (hb : a < h.arrs.length)
    (hlen : s.len ≤ s.cap) (harr : (h.getArr s.arr).length = s.cap) :
    ((goAppend h s xs).1.getArr a).length = (h.getArr a).length := by
  simp only [goAppend]
  split
  next hfit =>
      by_cases hsa : a = s.arr
      · subst hsa
        rw [getArr_setArr_self h s.arr _ hb, writeRange_length]
        omega
      · rw [getArr_setArr_ne h s.arr _ a hsa]
  next => rw [getArr_allocArr_lt h _ a hb]

/-- Appending never changes the elements the appended-to slice already
exposes. -/
theorem goAppend_view (h : Heap) (s : GoSlice) (xs : List String)
    (ha : s.arr < h.arrs.length) (hlen : s.len ≤ s.cap)
    (harr : (h.getArr s.arr).length = s.cap) :
    sliceView (goAppend h s xs).1 s = sliceView h s := by
  simp only [goAppend]
  split
  next hfit =>
      unfold sliceView
      simp only
      rw [getArr_setArr_self h s.arr _ ha, writeRange_take]
      omega
  next =>
      unfold sliceView
      simp only
      rw [getArr_allocArr_lt h _ s.arr ha]

/-- Heap evolution frame: what one builder operation is allowed to do to
the heap, seen from a builder o that was valid beforehand. Previously
allocated maps are untouched, previously allocated arrays keep their
length, the tag view of o is unchanged, and both stores only grow. -/
def heapFrame (h h2 : Heap) (o : OopsErrorBuilder) : Prop :=
  (∀ a, a < h.maps.length → h2.getMap a = h.getMap a) ∧
  (∀ a, a < h.arrs.length → (h2.getArr a).length = (h.getArr a).length) ∧
  sliceView h2 o.tags = sliceView h o.tags ∧
  h.maps.length + 3 ≤ h2.maps.length ∧
  h.arrs.length ≤ h2.arrs.length

theorem heapFrame_copy (h : Heap) (o : OopsErrorBuilder) :
    heapFrame h (o.copy h).1 o := by
  refine ⟨fun a ha => copy_getMap h o a ha, fun a ha => by rw [copy_getArr], ?_, ?_, ?_⟩
  · unfold sliceView
    rw [copy_getArr]
  · rw [copy_maps_length]
  · rw [copy_arrs_length]

theorem heapFrame_copy_setMap (h : Heap) (o : OopsErrorBuilder) (addr : Nat) (m : GoMap)
    (haddr : h.maps.length ≤ addr) :
    heapFrame h ((o.copy h).1.setMap addr m) o := by
  refine ⟨fun a ha => ?_, fun a ha => by rw [getArr_setMap, copy_getArr], ?_, ?_, ?_⟩
  · rw [getMap_setMap_ne _ _ _ _ (by omega), copy_getMap h o a ha]
  · unfold sliceView
    rw [getArr_setMap, copy_getArr]
  · rw [maps_length_setMap, copy_maps_length]
  · show h.arrs.length ≤ (o.copy h).1.arrs.length
    rw [copy_arrs_length]

theorem heapFrame_tags (h : Heap) (o : OopsErrorBuilder) (ts : List String)
    (hv : validBuilder h o) :
    heapFrame h (goAppend (o.copy h).1 (o.copy h).2.tags ts).1 o := by
  obtain ⟨hc, hu, ht, hta, htl, htc⟩ := hv
  have htags : (o.copy h).2.tags = o.tags := (copy_fields h o).2.2.2.2.1
  have harr2 : ((o.copy h).1.getArr o.tags.arr).length = o.tags.cap := by
    rw [copy_getArr]
    exact htc
  refine ⟨fun a ha => ?_, fun a ha => ?_, ?_, ?_, ?_⟩
  · rw [goAppend_getMap, copy_getMap h o a ha]
  · rw [htags, goAppend_getArr_length _ _ _ _ (by rw [copy_arrs_length]; exact ha) htl harr2,
      copy_getArr]
  · rw [htags, goAppend_view _ _ _ (by rw [copy_arrs_length]; exact hta) htl harr2]
    unfold sliceView
    rw [copy_getArr]
  · rw [goAppend_maps_length, copy_maps_length]
  · calc h.arrs.length = (o.copy h).1.arrs.length := (copy_arrs_length h o).symm
      _ ≤ _ := goAppend_arrs_length _ _ _

/-- Every builder setter respects the heap frame of its receiver. -/
theorem applySetter_frame (call : SetterCall) (h : Heap) (o : OopsErrorBuilder)
    (hv : validBuilder h o) :
    heapFrame h (applySetter call h o).1 o := by
  have hctx : (o.copy h).2.context = h.maps.length := (copy_fields h o).2.2.2.2.2.2.2.2.2.2.2.2.2.2.1
  have huser : (o.copy h).2.userData = h.maps.length + 1 :=
    (copy_fields h o).2.2.2.2.2.2.2.2.2.2.2.2.2.2.2.1
  have htenant : (o.copy h).2.tenantData = h.maps.length + 2 :=
    (copy_fields h o).2.2.2.2.2.2.2.2.2.2.2.2.2.2.2.2
  cases call <;> simp only [applySetter]
  case tags ts => exact heapFrame_tags h o ts hv
  case withKV kv => exact heapFrame_copy_setMap h o _ _ (by rw [hctx])
  case withCtx ctx keys => exact heapFrame_copy_setMap h o _ _ (by rw [hctx])
  case user id data => exact heapFrame_copy_setMap h o _ _ (by rw [huser]; omega)
  case tenant id data => exact heapFrame_copy_setMap h o _ _ (by rw [htenant]; omega)
  all_goals exact heapFrame_copy h o

theorem getArr_allocArr_new (h : Heap) (l : List String) :
    (h.allocArr l).1.getArr (h.allocArr l).2 = l :=
  getD_append_self h.arrs l []

/-- The slice returned by append is well formed. -/
theorem goAppend_valid (h : Heap) (s : GoSlice) (xs : List String)
    (ha : s.arr < h.arrs.length) (hlen : s.len ≤ s.cap)
    (harr : (h.getArr s.arr).length = s.cap) :
    (goAppend h s xs).2.arr < (goAppend h s xs).1.arrs.length ∧
    (goAppend h s xs).2.len ≤ (goAppend h s xs).2.cap ∧
    ((goAppend h s xs).1.getArr (goAppend h s xs).2.arr).length = (goAppend h s xs).2.cap := by
  simp only [goAppend]
  split
  next hfit =>
      refine ⟨?_, by simpa using hfit, ?_⟩
      · simpa [Heap.setArr] using ha
      · rw [getArr_setArr_self h s.arr _ ha, writeRange_length]
        · exact harr
        · omega
  next hfit =>
      refine ⟨?_, ?_, ?_⟩
      · simp [Heap.allocArr]
      · simp only
        unfold growCap
        split <;> omega
      · rw [getArr_allocArr_new]
        simp only [List.length_append, List.length_take, List.length_replicate]
        rw [harr]
        unfold growCap
        split <;> omega

/-- The builder returned by copy is valid. -/
theorem copy_valid (h : Heap) (o : OopsErrorBuilder) (hv : validBuilder h o) :
    validBuilder (o.copy h).1 (o.copy h).2 := by
  obtain ⟨hc, hu, ht, hta, htl, htc⟩ := hv
  obtain ⟨-, -, -, -, htags, -, -, -, -, -, -, -, -, -, hctx, huser, htenant⟩ :=
    copy_fields h o
  refine ⟨?_, ?_, ?_, ?_, ?_, ?_⟩
  · rw [hctx, copy_maps_length]
    omega
  · rw [huser, copy_maps_length]
    omega
  · rw [htenant, copy_maps_length]
    omega
  · rw [htags, copy_arrs_length]
    exact hta
  · rw [htags]
    exact htl
  · rw [htags, copy_getArr]
    exact htc

/-- Every setter returns a builder valid in the returned heap. -/
theorem applySetter_valid (call : SetterCall) (h : Heap) (o : OopsErrorBuilder)
    (hv : validBuilder h o) :
    validBuilder (applySetter call h o).1 (applySetter call h o).2 := by
  have hcv := copy_valid h o hv
  obtain ⟨hc2, hu2, ht2, hta2, htl2, htc2⟩ := hcv
  cases call <;> simp only [applySetter]
  case tags ts =>
      have hgv := goAppend_valid (o.copy h).1 (o.copy h).2.tags ts hta2 htl2 htc2
      exact ⟨by rw [goAppend_maps_length]; exact hc2,
        by rw [goAppend_maps_length]; exact hu2,
        by rw [goAppend_maps_length]; exact ht2,
        hgv.1, hgv.2.1, hgv.2.2⟩
  case withKV kv =>
      exact ⟨by rw [maps_length_setMap]; exact hc2, by rw [maps_length_setMap]; exact hu2,
        by rw [maps_length_setMap]; exact ht2, hta2, htl2, by rw [getArr_setMap]; exact htc2⟩
  case withCtx ctx keys =>
      exact ⟨by rw [maps_length_setMap]; exact hc2, by rw [maps_length_setMap]; exact hu2,
        by rw [maps_length_setMap]; exact ht2, hta2, htl2, by rw [getArr_setMap]; exact htc2⟩
  case user id data =>
      exact ⟨by rw [maps_length_setMap]; exact hc2, by rw [maps_length_setMap]; exact hu2,
        by rw [maps_length_setMap]; exact ht2, hta2, htl2, by rw [getArr_setMap]; exact htc2⟩
  case tenant id data =>
      exact ⟨by rw [maps_length_setMap]; exact hc2, by rw [maps_length_setMap]; exact hu2,
        by rw [maps_length_setMap]; exact ht2, hta2, htl2, by rw [getArr_setMap]; exact htc2⟩
  all_goals exact ⟨hc2, hu2, ht2, hta2, htl2, htc2⟩

/-- A builder valid in a heap stays valid under any frame evolution. -/
theorem valid_of_frame (h h2 : Heap) (o : OopsErrorBuilder)
    (hv : validBuilder h o) (hf : heapFrame h h2 o) : validBuilder h2 o := by
  obtain ⟨hc, hu, ht, hta, htl, htc⟩ := hv
  obtain ⟨hfm, hfa, hfv, hml, hal⟩ := hf
  exact ⟨by omega, by omega, by omega, by omega, htl, by rw [hfa o.tags.arr hta]; exact htc⟩

/-- Every setter leaves its receiver observably unchanged. -/
theorem applySetter_receiver (call : SetterCall) (h : Heap) (o : OopsErrorBuilder)
    (hv : validBuilder h o) :
    observe (applySetter call h o).1 o = observe h o := by
  obtain ⟨hfm, hfa, hfv, hml, hal⟩ := applySetter_frame call h o hv
  obtain ⟨hc, hu, ht, hta, htl, htc⟩ := hv
  unfold observe
  rw [hfm o.context hc, hfm o.userData hu, hfm o.tenantData ht, hfv]

/-- Map additions of sibling builders derived from a shared receiver are
isolated: the second derivation never changes the first derivation's
context, user or tenant map contents. -/
theorem applySetter_sibling_maps (call1 call2 : SetterCall) (h : Heap)
    (o : OopsErrorBuilder) (hv : validBuilder h o) :
    (applySetter call2 (applySetter call1 h o).1 o).1.getMap
        (applySetter call1 h o).2.context =
      (applySetter call1 h o).1.getMap (applySetter call1 h o).2.context ∧
    (applySetter call2 (applySetter call1 h o).1 o).1.getMap
        (applySetter call1 h o).2.userData =
      (applySetter call1 h o).1.getMap (applySetter call1 h o).2.userData ∧
    (applySetter call2 (applySetter call1 h o).1 o).1.getMap
        (applySetter call1 h o).2.tenantData =
      (applySetter call1 h o).1.getMap (applySetter call1 h o).2.tenantData := by
  have hv1o : validBuilder (applySetter call1 h o).1 o :=
    valid_of_frame h _ o hv (applySetter_frame call1 h o hv)
  have hb1 : validBuilder (applySetter call1 h o).1 (applySetter call1 h o).2 :=
    applySetter_valid call1 h o hv
  obtain ⟨hfm, -, -, -, -⟩ := applySetter_frame call2 (applySetter call1 h o).1 o hv1o
  exact ⟨hfm _ hb1.1, hfm _ hb1.2.1, hfm _ hb1.2.2.1⟩

/-! Concrete example chains used by the claims. -/

/-- A foreign terminal cause. -/
def exBoom : OErr := OErr.foreign "boom"

def exInnerCodeB : OopsError := ⟨{ code := "B" }, some exBoom⟩

def exOuterCodeAB : OopsError := ⟨{ code := "A" }, some exInnerCodeB.toErr⟩

def exInnerCodeEmpty : OopsError := ⟨{}, some exBoom⟩

def exOuterCodeAE : OopsError := ⟨{ code := "A" }, some exInnerCodeEmpty.toErr⟩

def exInnerCtx : OopsError := ⟨{ context := [("x", GoValue.int 9)] }, some exBoom⟩

def exOuterCtx : OopsError :=
  ⟨{ context := [("x", GoValue.int 1), ("y", GoValue.int 2)] }, some exInnerCtx.toErr⟩

def exInnerTags : OopsError := ⟨{ tags := ["b", "c"] }, some exBoom⟩

def exOuterTags : OopsError := ⟨{ tags := ["a", "b"] }, some exInnerTags.toErr⟩

def exInnerSpan : OopsError := ⟨{ span := "S2", code := "CB" }, some exBoom⟩

def exOuterSpan : OopsError := ⟨{ span := "S1", code := "CA" }, some exInnerSpan.toErr⟩

def exInnerPlain : OopsError := ⟨{}, some exBoom⟩

def exOuterPlain : OopsError := ⟨{}, some exInnerPlain.toErr⟩

theorem chain_exOuterCodeAB : chainNodes exOuterCodeAB = [exOuterCodeAB, exInnerCodeB] := by
  rw [chainNodes_cons exOuterCodeAB exInnerCodeB.toErr exInnerCodeB rfl rfl,
    chainNodes_foreign exInnerCodeB exBoom rfl rfl]

theorem chain_exOuterCodeAE : chainNodes exOuterCodeAE = [exOuterCodeAE, exInnerCodeEmpty] := by
  rw [chainNodes_cons exOuterCodeAE exInnerCodeEmpty.toErr exInnerCodeEmpty rfl rfl,
    chainNodes_foreign exInnerCodeEmpty exBoom rfl rfl]

theorem chain_exOuterCtx : chainNodes exOuterCtx = [exOuterCtx, exInnerCtx] := by
  rw [chainNodes_cons exOuterCtx exInnerCtx.toErr exInnerCtx rfl rfl,
    chainNodes_foreign exInnerCtx exBoom rfl rfl]

theorem chain_exOuterTags : chainNodes exOuterTags = [exOuterTags, exInnerTags] := by
  rw [chainNodes_cons exOuterTags exInnerTags.toErr exInnerTags rfl rfl,
    chainNodes_foreign exInnerTags exBoom rfl rfl]

theorem chain_exOuterSpan : chainNodes exOuterSpan = [exOuterSpan, exInnerSpan] := by
  rw [chainNodes_cons exOuterSpan exInnerSpan.toErr exInnerSpan rfl rfl,
    chainNodes_foreign exInnerSpan exBoom rfl rfl]

theorem chain_exOuterPlain : chainNodes exOuterPlain = [exOuterPlain, exInnerPlain] := by
  rw [chainNodes_cons exOuterPlain exInnerPlain.toErr exInnerPlain rfl rfl,
    chainNodes_foreign exInnerPlain exBoom rfl rfl]

theorem coalesceOrEmpty_all_zero {T : Type} [DecidableEq T] (z : T) (l : List T)
    (hall : ∀ x ∈ l, x = z) : coalesceOrEmpty z l = z := by
  unfold coalesceOrEmpty
  cases hf : l.find? (fun v => v ≠ z) with
  | none => rfl
  | some v =>
      have hmem := List.mem_of_find?_eq_some hf
      have := List.find?_some hf
      simp only [ne_eq, decide_eq_true_eq] at this
      exact absurd (hall v hmem) this

/-- C2: the deepest-wins-with-fallback getters return the innermost
non-zero value of the chain, falling back outward — the coalesce of the
per-node values taken innermost first — and in particular
outer(code A) wrapping inner(code B) resolves Code to B, while
outer(code A) wrapping inner(code empty) resolves Code to A. -/
theorem claim_C2_deepest_wins_with_fallback :
    (∀ (T : Type) (inst : DecidableEq T) (z : T) (g : OopsError → T) (o : OopsError),
      @getDeepestErrorAttribute T inst z o g =
        @coalesceOrEmpty T inst z ((chainNodes o).reverse.map g)) ∧
    (∀ o : OopsError,
      o.Code = coalesceOrEmpty "" ((chainNodes o).reverse.map (fun n => n.attrs.code))) ∧
    exOuterCodeAB.Code = "B" ∧ exOuterCodeAE.Code = "A" := by
  refine ⟨fun T inst z g o => getDeepest_eq_coalesce z g o,
    fun o => getDeepest_eq_coalesce "" _ o, ?_, ?_⟩
  · rw [OopsError.Code, getDeepest_eq_coalesce, chain_exOuterCodeAB]
    decide
  · rw [OopsError.Code, getDeepest_eq_coalesce, chain_exOuterCodeAE]
    decide

/-- C4: message composition of a sealed node — with a cause and a
non-empty message, Error is the message, a colon and a space, then the
cause message; with a cause and an empty message, just the cause
message; without a cause, the bare message. -/
theorem claim_C4_message_composition (a : OAttrs) (c : OErr) :
    (a.msg ≠ "" → OopsError.Error ⟨a, some c⟩ = a.msg ++ ": " ++ c.errorMsg) ∧
    (a.msg = "" → OopsError.Error ⟨a, some c⟩ = c.errorMsg) ∧
    OopsError.Error ⟨a, none⟩ = a.msg := by
  refine ⟨fun hne => ?_, fun he => ?_, rfl⟩
  · unfold OopsError.Error
    simp [hne]
  · unfold OopsError.Error
    simp [he]

/-- C4 witness at a concrete node. -/
theorem claim_C4_message_composition_witness :
    ({ msg := "outer" } : OAttrs).msg ≠ "" ∧
    OopsError.Error ⟨{ msg := "outer" }, some exBoom⟩ =
      ({ msg := "outer" } : OAttrs).msg ++ ": " ++ exBoom.errorMsg :=
  ⟨by decide, (claim_C4_message_composition { msg := "outer" } exBoom).1 (by decide)⟩

/-- C5: Tags is the walk-order concatenation of the per-node tag lists,
deduplicated preserving first occurrences, and HasTag holds exactly when
some node of the chain carries the tag in its own list; on
outer(tags a b) wrapping inner(tags b c), Tags is a b c and
HasTag c holds. -/
theorem claim_C5_tags_union_and_membership :
    (∀ o : OopsError, o.Tags = loUniq (((chainNodes o).map (fun n => n.attrs.tags)).join)) ∧
    (∀ o : OopsError, o.Tags.Nodup) ∧
    (∀ (o : OopsError) (t : String), t ∈ o.Tags ↔ ∃ n ∈ chainNodes o, t ∈ n.attrs.tags) ∧
    (∀ (o : OopsError) (t : String), o.HasTag t = true ↔ ∃ n ∈ chainNodes o, t ∈ n.attrs.tags) ∧
    exOuterTags.Tags = ["a", "b", "c"] ∧ exOuterTags.HasTag "c" = true := by
  refine ⟨fun o => tags_eq_uniq_join o, fun o => ?_, fun o t => ?_, fun o t => ?_, ?_, ?_⟩
  · rw [tags_eq_uniq_join]
    exact nodup_loUniq _
  · rw [tags_eq_uniq_join, mem_loUniq, List.mem_join]
    constructor
    · rintro ⟨l, hl, htl⟩
      obtain ⟨n, hn, rfl⟩ := List.mem_map.mp hl
      exact ⟨n, hn, htl⟩
    · rintro ⟨n, hn, htn⟩
      exact ⟨n.attrs.tags, List.mem_map_of_mem _ hn, htn⟩
  · rw [hasTag_eq_any, List.any_eq_true]
    simp
  · rw [tags_eq_uniq_join, chain_exOuterTags]
    decide
  · rw [hasTag_eq_any, chain_exOuterTags]
    decide

/-- C9: Span is resolved on the current node only, with no chain walk:
outer(span S1) wrapping inner(span S2) answers S1 from the outer node,
while Code on the same chain resolves to the inner node's value. -/
theorem claim_C9_span_local :
    (∀ (a : OAttrs) (c : Option OErr), OopsError.Span ⟨a, c⟩ = a.span) ∧
    exOuterSpan.Span = "S1" ∧ exInnerSpan.Span = "S2" ∧ ("S1" : String) ≠ "S2" ∧
    exOuterSpan.Code = "CB" := by
  refine ⟨fun a c => rfl, rfl, rfl, by decide, ?_⟩
  rw [OopsError.Code, getDeepest_eq_coalesce, chain_exOuterSpan]
  decide

/-- C10: Trace never returns the empty string when the generated ULID is
non-empty — a chain whose nodes all leave trace empty answers the
freshly generated ULID, so two calls can differ — unlike Code, which
answers the zero value on such a chain. -/
theorem claim_C10_trace_never_empty :
    (∀ (o : OopsError) (u : String), u ≠ "" → o.Trace u ≠ "") ∧
    (∀ (o : OopsError) (u : String),
      (∀ n ∈ chainNodes o, n.attrs.trace = "") → o.Trace u = u) ∧
    (∀ u : String, exOuterPlain.Trace u = u) ∧
    exOuterPlain.Code = "" := by
  have hgen : ∀ (o : OopsError) (u : String),
      (∀ n ∈ chainNodes o, n.attrs.trace = "") → o.Trace u = u := by
    intro o u hall
    unfold OopsError.Trace
    rw [getDeepest_eq_coalesce, coalesceOrEmpty_all_zero]
    · simp
    · intro x hx
      obtain ⟨n, hn, rfl⟩ := List.mem_map.mp hx
      exact hall n (List.mem_reverse.mp hn)
  refine ⟨fun o u hu => ?_, hgen, fun u => hgen _ u ?_, ?_⟩
  · unfold OopsError.Trace
    by_cases ht : getDeepestErrorAttribute "" o (fun e => e.attrs.trace) ≠ ""
    · simp [ht]
    · simp [ht, hu]
  · rw [chain_exOuterPlain]
    decide
  · rw [OopsError.Code, getDeepest_eq_coalesce, chain_exOuterPlain]
    decide

/-- C10 witness at a concrete chain and ULID. -/
theorem claim_C10_trace_never_empty_witness :
    ("01HZX" : String) ≠ "" ∧ exOuterPlain.Trace "01HZX" ≠ "" :=
  ⟨by decide, claim_C10_trace_never_empty.1 exOuterPlain "01HZX" (by decide)⟩

theorem merge_exOuterCtx : mergeNestedErrorMap exOuterCtx (fun e => e.attrs.context) =
    [("x", GoValue.int 9), ("y", GoValue.int 2)] := by
  rw [mergeNested_cons exOuterCtx _ exInnerCtx.toErr exInnerCtx rfl rfl,
    mergeNested_foreign exInnerCtx _ exBoom rfl rfl]
  decide

/-- C1 counterexample: on outer(context x 1, y 2) wrapping
inner(context x 9), Context answers x 9 — the inner value — not the
claimed outer value x 1. -/
theorem claim_C1_counterexample :
    mapGet exOuterCtx.Context "x" = some (GoValue.int 9) ∧
    mapGet exOuterCtx.Context "x" ≠ some (GoValue.int 1) := by
  unfold OopsError.Context
  rw [merge_exOuterCtx]
  exact ⟨by decide, by decide⟩

/-- C1 amended: Context, userData and tenantData merge the per-node maps
with the INNER node winning on key collision — a key resolves to the
binding of the deepest node carrying it, keys held by a single node are
inherited — so the example chain resolves to x 9, y 2. -/
theorem claim_C1_merge_wins_inner :
    (∀ (o : OopsError) (g : OopsError → GoMap) (k : String),
      (∀ n ∈ chainNodes o, (mapKeys (g n)).Nodup) →
      mapGet (mergeNestedErrorMap o g) k =
        firstSome ((chainNodes o).reverse.map (fun n => mapGet (g n) k))) ∧
    mapGet exOuterCtx.Context "x" = some (GoValue.int 9) ∧
    mapGet exOuterCtx.Context "y" = some (GoValue.int 2) ∧
    mapKeys exOuterCtx.Context = ["x", "y"] := by
  refine ⟨fun o g k hnd => mergeNested_get o g k hnd, ?_, ?_, ?_⟩ <;>
    unfold OopsError.Context <;> rw [merge_exOuterCtx] <;> decide

/-- C1 witness: the amended merge rule applied to the concrete chain. -/
theorem claim_C1_merge_wins_inner_witness :
    mapGet (mergeNestedErrorMap exOuterCtx (fun e => e.attrs.context)) "x" =
      firstSome ((chainNodes exOuterCtx).reverse.map
        (fun n => mapGet (n.attrs.context) "x")) :=
  claim_C1_merge_wins_inner.1 exOuterCtx _ "x" (by rw [chain_exOuterCtx]; decide)

/-- C3: wrapping a nil cause yields nil, whatever the builder holds;
wrapping a non-nil cause yields a non-nil sealed node holding that
cause. -/
theorem claim_C3_nil_wrap_identity :
    (∀ (h : Heap) (o : OopsErrorBuilder) (u : String) (st : List String),
      o.Wrap h none u st = none) ∧
    (∀ (h : Heap) (o : OopsErrorBuilder) (m u : String) (st : List String),
      o.Wrapf h none m u st = none) ∧
    (∀ (h : Heap) (o : OopsErrorBuilder) (e : OErr) (u : String) (st : List String),
      ∃ node : OopsError, o.Wrap h (some e) u st = some node ∧ node.err = some e) ∧
    (∀ (h : Heap) (o : OopsErrorBuilder) (e : OErr) (m u : String) (st : List String),
      ∃ node : OopsError, o.Wrapf h (some e) m u st = some node ∧ node.err = some e) := by
  refine ⟨fun h o u st => rfl, fun h o m u st => rfl, fun h o e u st => ⟨_, rfl, rfl⟩,
    fun h o e m u st => ⟨_, rfl, rfl⟩⟩

/-- k nested pointers around a base value. -/
def ptrN : Nat → GoValue → GoValue
  | 0, v => v
  | n + 1, v => GoValue.ptrTo (ptrN n v)

theorem rec_ptrTo (inner : GoValue) (d : Nat) :
    dereferencePointerRecursive (GoValue.ptrTo inner) d =
      if d > 10 then GoValue.ptrTo inner
      else
        match inner with
        | GoValue.ptrNil => dereferencePointerRecursive GoValue.ptrNil (d + 1)
        | GoValue.ptrTo p => dereferencePointerRecursive (GoValue.ptrTo p) (d + 1)
        | w => w := by
  cases inner <;> simp [dereferencePointerRecursive]

theorem rec_ptrN_full (k : Nat) (d : Nat) (v : GoValue) (hp : isPtrKind v = false)
    (h1 : 1 ≤ k) (h2 : k + d ≤ 11) :
    dereferencePointerRecursive (ptrN k v) d = v := by
  induction k generalizing d with
  | zero => omega
  | succ n ih =>
      simp only [ptrN]
      rw [rec_ptrTo, if_neg (by omega)]
      cases n with
      | zero =>
          cases v with
          | nilv => rfl
          | str s => rfl
          | int m => rfl
          | ptrNil => simp [isPtrKind] at hp
          | ptrTo w => simp [isPtrKind] at hp
          | thunk w => rfl
      | succ m =>
          show dereferencePointerRecursive (GoValue.ptrTo (ptrN m v)) (d + 1) = v
          exact ih (d + 1) (by omega) (by omega)

theorem rec_ptrN_cap (k : Nat) (d : Nat) (v : GoValue) (hp : isPtrKind v = false)
    (h1 : 1 ≤ k) (hd : d ≤ 11) (h2 : 12 ≤ k + d) :
    dereferencePointerRecursive (ptrN k v) d = ptrN (k - (11 - d)) v := by
  induction k generalizing d with
  | zero => omega
  | succ n ih =>
      simp only [ptrN]
      rw [rec_ptrTo]
      by_cases hcap : d > 10
      · rw [if_pos hcap]
        have hd11 : d = 11 := by omega
        subst hd11
        show GoValue.ptrTo (ptrN n v) = ptrN (n + 1 - (11 - 11)) v
        norm_num
        rfl
      · rw [if_neg hcap]
        cases n with
        | zero => omega
        | succ m =>
            have hih : dereferencePointerRecursive (GoValue.ptrTo (ptrN m v)) (d + 1) =
                ptrN (m + 1 - (11 - (d + 1))) v := ih (d + 1) (by omega) (by omega) (by omega)
            have harith : m + 1 - (11 - (d + 1)) = m + 1 + 1 - (11 - d) := by omega
            rw [harith] at hih
            exact hih

theorem rec_ptrN_nil (j : Nat) (d : Nat) (hjd : j + d ≤ 11) :
    dereferencePointerRecursive (ptrN j GoValue.ptrNil) d = GoValue.nilv := by
  induction j generalizing d with
  | zero => rfl
  | succ n ih =>
      simp only [ptrN]
      rw [rec_ptrTo, if_neg (by omega)]
      cases n with
      | zero => simp [ptrN, dereferencePointerRecursive]
      | succ m =>
          show dereferencePointerRecursive (GoValue.ptrTo (ptrN m GoValue.ptrNil)) (d + 1) =
            GoValue.nilv
          exact ih (d + 1) (by omega)

theorem mapGet_cons (x : String × GoValue) (l : GoMap) (k : String) :
    mapGet (x :: l) k = if x.1 == k then some x.2 else mapGet l k := by
  unfold mapGet
  cases htest : (x.1 == k) <;> simp [List.find?, htest]

theorem mapGet_dereferencePointers (m : GoMap) (k : String) :
    mapGet (dereferencePointers true m) k =
      (mapGet m k).map (fun w => if isPtrKind w then dereferencePointer w else w) := by
  show mapGet (m.map fun kv => if isPtrKind kv.2 then (kv.1, dereferencePointer kv.2) else kv) k
    = _
  induction m with
  | nil => rfl
  | cons kv rest ih =>
      simp only [List.map_cons, mapGet_cons]
      have hfst : (if isPtrKind kv.2 then (kv.1, dereferencePointer kv.2) else kv).1 = kv.1 := by
        by_cases hp : isPtrKind kv.2 <;> simp [hp]
      rw [hfst]
      cases htest : (kv.1 == k) with
      | false => simp [htest, ih]
      | true =>
          simp only [htest, if_true]
          by_cases hp : isPtrKind kv.2 <;> simp [hp]

/-- C6 counterexample: a chain of exactly 11 pointer hops resolves fully
to the base value rather than being returned as a raw pointer. -/
theorem claim_C6_counterexample :
    dereferencePointer (ptrN 11 (GoValue.str "v")) = GoValue.str "v" ∧
    isPtrKind (dereferencePointer (ptrN 11 (GoValue.str "v"))) = false := by
  decide

/-- C6 amended: pointer chains of up to 11 hops resolve fully to the
pointed-to value, a nil pointer within the first 12 hops resolves to
nil, and a chain of 12 or more hops stops at the depth cap and returns
the pointer remaining there (with 11 hops stripped) instead of recursing
unboundedly; every pointer-kinded map value goes through this
resolution. -/
theorem claim_C6_pointer_dereference (v : GoValue) (hp : isPtrKind v = false)
    (hnn : v ≠ GoValue.nilv) :
    (∀ k, 1 ≤ k → k ≤ 11 → dereferencePointer (ptrN k v) = v) ∧
    (∀ k, 12 ≤ k → dereferencePointer (ptrN k v) = ptrN (k - 11) v) ∧
    (∀ j, j ≤ 11 → dereferencePointer (ptrN j GoValue.ptrNil) = GoValue.nilv) ∧
    dereferencePointer (GoValue.ptrTo (GoValue.str "hello")) = GoValue.str "hello" ∧
    dereferencePointer (GoValue.ptrTo (GoValue.ptrTo (GoValue.ptrTo (GoValue.int 7)))) =
      GoValue.int 7 ∧
    (∀ (m : GoMap) (k : String),
      mapGet (dereferencePointers true m) k =
        (mapGet m k).map (fun w => if isPtrKind w then dereferencePointer w else w)) := by
  refine ⟨fun k hk1 hk11 => ?_, fun k hk12 => ?_, fun j hj => ?_, by decide, by decide,
    fun m k => mapGet_dereferencePointers m k⟩
  · obtain ⟨k2, rfl⟩ : ∃ k2, k = k2 + 1 := ⟨k - 1, by omega⟩
    show dereferencePointerRecursive (ptrN (k2 + 1) v) 0 = v
    exact rec_ptrN_full (k2 + 1) 0 v hp (by omega) (by omega)
  · obtain ⟨k2, rfl⟩ : ∃ k2, k = k2 + 1 := ⟨k - 1, by omega⟩
    show dereferencePointerRecursive (ptrN (k2 + 1) v) 0 = ptrN (k2 + 1 - 11) v
    have := rec_ptrN_cap (k2 + 1) 0 v hp (by omega) (by omega) (by omega)
    simpa using this
  · cases j with
    | zero => rfl
    | succ n =>
        show dereferencePointerRecursive (ptrN (n + 1) GoValue.ptrNil) 0 = GoValue.nilv
        exact rec_ptrN_nil (n + 1) 0 (by omega)

/-- C6 witness: the amended statement applied at a non-pointer base. -/
theorem claim_C6_pointer_dereference_witness :
    isPtrKind (GoValue.str "hello") = false ∧ GoValue.str "hello" ≠ GoValue.nilv ∧
    dereferencePointer (ptrN 11 (GoValue.str "hello")) = GoValue.str "hello" ∧
    dereferencePointer (ptrN 12 (GoValue.str "hello")) = ptrN 1 (GoValue.str "hello") :=
  ⟨by decide, by decide,
   (claim_C6_pointer_dereference (GoValue.str "hello") (by decide) (by decide)).1 11
     (by decide) (by decide),
   (claim_C6_pointer_dereference (GoValue.str "hello") (by decide) (by decide)).2.1 12
     (by decide)⟩

/-- A sealed wrap node reports the cause message, the builder message
being empty. -/
theorem wrap_error_msg (h : Heap) (o : OopsErrorBuilder) (e : OErr) (u : String)
    (st : List String) (node : OopsError) (hw : o.Wrap h (some e) u st = some node) :
    node.Error = e.errorMsg := by
  simp only [OopsErrorBuilder.Wrap, Option.some.injEq] at hw
  rw [← hw]
  unfold OopsError.Error
  simp

/-- C7: Recover returns nil when the callback completes; every panic
payload becomes a non-nil wrapped error — an error payload is wrapped
itself, a non-error payload is formatted and wrapped, and panic(nil),
which the Go 1.21 runtime surfaces as a runtime.PanicNilError, becomes a
non-nil error with a non-empty descriptive message. -/
theorem claim_C7_panics_as_errors :
    (∀ (h : Heap) (o : OopsErrorBuilder) (u : String) (st : List String),
      o.Recover h CbOutcome.normal u st = none) ∧
    (∀ (h : Heap) (o : OopsErrorBuilder) (e : OErr) (u : String) (st : List String),
      ∃ node : OopsError, o.Recover h (CbOutcome.panicErr e) u st = some node ∧
        node.err = some e) ∧
    (∀ (h : Heap) (o : OopsErrorBuilder) (v : GoValue) (u : String) (st : List String),
      ∃ node : OopsError, o.Recover h (CbOutcome.panicValue v) u st = some node) ∧
    (∀ (h : Heap) (o : OopsErrorBuilder) (u : String) (st : List String),
      ∃ node : OopsError, o.Recover h CbOutcome.panicNil u st = some node ∧
        node.Error = panicNilErrorMessage) ∧
    panicNilErrorMessage ≠ "" := by
  refine ⟨fun h o u st => rfl, fun h o e u st => ⟨_, rfl, rfl⟩, fun h o v u st => ⟨_, rfl⟩,
    fun h o u st => ⟨_, rfl, ?_⟩, by decide⟩
  exact wrap_error_msg h o (OErr.foreign panicNilErrorMessage) u st _ rfl

/-- C8 amended: every setter returns a new builder and leaves the
receiver observably unchanged — scalars, map contents and tag
sequence — and map additions of sibling derivations are isolated from
one another; tag additions, however, are not always isolated between
siblings, because the tag slice backing array is shared and an append
writes it in place when spare capacity exists (see the
counterexample). -/
theorem claim_C8_copy_on_write :
    (∀ (call : SetterCall) (h : Heap) (o : OopsErrorBuilder), validBuilder h o →
      observe (applySetter call h o).1 o = observe h o) ∧
    (∀ (call1 call2 : SetterCall) (h : Heap) (o : OopsErrorBuilder), validBuilder h o →
      (applySetter call2 (applySetter call1 h o).1 o).1.getMap
          (applySetter call1 h o).2.context =
        (applySetter call1 h o).1.getMap (applySetter call1 h o).2.context ∧
      (applySetter call2 (applySetter call1 h o).1 o).1.getMap
          (applySetter call1 h o).2.userData =
        (applySetter call1 h o).1.getMap (applySetter call1 h o).2.userData ∧
      (applySetter call2 (applySetter call1 h o).1 o).1.getMap
          (applySetter call1 h o).2.tenantData =
        (applySetter call1 h o).1.getMap (applySetter call1 h o).2.tenantData) :=
  ⟨applySetter_receiver, applySetter_sibling_maps⟩

/-- C8 witness: a concrete fresh builder and setter call. -/
theorem claim_C8_copy_on_write_witness :
    validBuilder (newBuilder ⟨[], []⟩ 0).1 (newBuilder ⟨[], []⟩ 0).2 ∧
    observe (applySetter (SetterCall.code "db") (newBuilder ⟨[], []⟩ 0).1
        (newBuilder ⟨[], []⟩ 0).2).1 (newBuilder ⟨[], []⟩ 0).2 =
      observe (newBuilder ⟨[], []⟩ 0).1 (newBuilder ⟨[], []⟩ 0).2 :=
  ⟨by decide,
   claim_C8_copy_on_write.1 (SetterCall.code "db") (newBuilder ⟨[], []⟩ 0).1
     (newBuilder ⟨[], []⟩ 0).2 (by decide)⟩

/-- The shared receiver of the tag cross-talk scenario: three successive
Tags calls leave a slice of length 3 and capacity 4. -/
def cexBase : Heap × OopsErrorBuilder :=
  let r0 := newBuilder ⟨[], []⟩ 0
  let r1 := applySetter (SetterCall.tags ["a"]) r0.1 r0.2
  let r2 := applySetter (SetterCall.tags ["b"]) r1.1 r1.2
  applySetter (SetterCall.tags ["c"]) r2.1 r2.2

/-- First sibling derivation: Tags x. -/
def cexS1 : Heap × OopsErrorBuilder :=
  applySetter (SetterCall.tags ["x"]) cexBase.1 cexBase.2

/-- Second sibling derivation from the same shared receiver: Tags y. -/
def cexS2 : Heap × OopsErrorBuilder :=
  applySetter (SetterCall.tags ["y"]) cexS1.1 cexBase.2

/-- C8 counterexample: after the second sibling appends its tag, the
first sibling observes the second sibling's tag in place of its own —
the shared backing array was written in place — refuting the claim that
no sequence's additions become visible through the others. -/
theorem claim_C8_counterexample :
    (observe cexS1.1 cexS1.2).tags = ["a", "b", "c", "x"] ∧
    (observe cexS2.1 cexS1.2).tags = ["a", "b", "c", "y"] ∧
    observe cexS2.1 cexS1.2 ≠ observe cexS1.1 cexS1.2 := by
  decide

end Oops
